import Mathlib

/-!
Formal model of the real-time-rag service, embedded shallowly in Lean 4.

The definitions below translate the Python services of the repository:
chunk identity (app/services/chunking.py), CDC event normalization and
processing (app/services/event_processor.py, app/models/event.py), RAG
query processing with context assembly, confidence-gated source
filtering and pagination (app/services/query_processor.py), and the
retry helper (app/services/retry.py).

Modelling conventions: Python dicts become association lists, machine
floats become rationals, fallible code returns Except/Option, external
services (text splitter, embeddings, vector store, LLM, Redis) are
passed as explicit function parameters, and wall-clock time is an
explicit argument.
-/

set_option linter.unusedVariables false

namespace RagSpec

/-- Values carried by JSON-like payload dictionaries. Nested containers are
not needed by the modelled code paths, which only read scalar fields. -/
inductive PyVal where
  | vNull : PyVal
  | vBool : Bool → PyVal
  | vInt : Int → PyVal
  | vStr : String → PyVal
deriving DecidableEq, Repr

/-- Python truthiness of a value: None, False, 0 and the empty string are
falsy, everything else is truthy. -/
def PyVal.truthy : PyVal → Bool
  | .vNull => false
  | .vBool b => b
  | .vInt n => n != 0
  | .vStr s => s != ""

/-- Python str() rendering of a scalar value. -/
def PyVal.pyStr : PyVal → String
  | .vNull => "None"
  | .vBool b => if b then "True" else "False"
  | .vInt n => toString n
  | .vStr s => s

/-- A Python dict with scalar values, as an association list (keys unique in
practice; lookups return the first binding, as dict lookup would). -/
abbrev Payload := List (String × PyVal)

/-- Python dict.get(k): the value bound to k, if any. -/
def pyGet (p : Payload) (k : String) : Option PyVal :=
  (p.find? (fun e => e.1 == k)).map (fun e => e.2)

/-- Python dict.get(k, d): lookup with a default. -/
def pyGetD (p : Payload) (k : String) (d : PyVal) : PyVal :=
  (pyGet p k).getD d

/-- Python's a or b for an optional left operand: the left value when it is
truthy, otherwise the right operand. -/
def pyOr (a : Option PyVal) (b : PyVal) : PyVal :=
  match a with
  | some v => if v.truthy then v else b
  | none => b

/-- Python's a or b when both operands are optional values. -/
def pyOrOpt (a b : Option PyVal) : Option PyVal :=
  match a with
  | some v => if v.truthy then some v else b
  | none => b

/-- Python s.startswith(pre) on code points. -/
def pyStartsWith (s pre : String) : Bool :=
  s.data.take pre.data.length == pre.data

/-! ### SHA-1 and UUIDv5

The chunker derives chunk IDs with Python's uuid.uuid5, which hashes the
namespace bytes followed by the UTF-8 name bytes with SHA-1 and stamps
the version and variant bits. The hash is modelled bit-faithfully on
byte lists (bytes and 32-bit words are Nat with explicit reduction
modulo 2^32). -/

/-- UTF-8 encoding of a single character as byte values. -/
def utf8EncodeChar (c : Char) : List Nat :=
  let n := c.toNat
  if n < 128 then [n]
  else if n < 2048 then [192 + n / 64, 128 + n % 64]
  else if n < 65536 then [224 + n / 4096, 128 + (n / 64) % 64, 128 + n % 64]
  else [240 + n / 262144, 128 + (n / 4096) % 64, 128 + (n / 64) % 64, 128 + n % 64]

/-- UTF-8 bytes of a string, as Python's str.encode() produces. -/
def utf8Bytes (s : String) : List Nat :=
  (s.data.map utf8EncodeChar).flatten

/-- Modulus for 32-bit words. -/
def w32 : Nat := 4294967296

/-- Left rotation of a 32-bit word by k bits (0 < k < 32, x < 2^32). -/
def rotl32 (x k : Nat) : Nat :=
  (x % 2 ^ (32 - k)) * 2 ^ k + x / 2 ^ (32 - k)

/-- SHA-1 round function for round t. -/
def sha1F (t b c d : Nat) : Nat :=
  if t < 20 then (b &&& c) ||| ((4294967295 - b) &&& d)
  else if t < 40 then b ^^^ c ^^^ d
  else if t < 60 then (b &&& c) ||| (b &&& d) ||| (c &&& d)
  else b ^^^ c ^^^ d

/-- SHA-1 round constants. -/
def sha1K (t : Nat) : Nat :=
  if t < 20 then 0x5A827999
  else if t < 40 then 0x6ED9EBA1
  else if t < 60 then 0x8F1BBCDC
  else 0xCA62C1D6

/-- Big-endian words from a list of bytes, four bytes per word. -/
def bytesToWords : List Nat → List Nat
  | b0 :: b1 :: b2 :: b3 :: rest =>
      (((b0 * 256 + b1) * 256 + b2) * 256 + b3) :: bytesToWords rest
  | _ => []

/-- Message schedule: expand the 16 block words to 80 words. -/
def sha1Schedule (block : List Nat) : Array Nat :=
  (List.range 64).foldl
    (fun w i =>
      w.push (rotl32
        ((w.getD (i + 13) 0) ^^^ (w.getD (i + 8) 0) ^^^
          (w.getD (i + 2) 0) ^^^ (w.getD i 0)) 1))
    (bytesToWords block).toArray

/-- Running SHA-1 state: five 32-bit words. -/
structure Sha1State where
  h0 : Nat
  h1 : Nat
  h2 : Nat
  h3 : Nat
  h4 : Nat
deriving DecidableEq, Repr

/-- SHA-1 compression of one 64-byte block into the running state. -/
def sha1Compress (st : Sha1State) (block : List Nat) : Sha1State :=
  let w := sha1Schedule block
  let step := fun (s : Nat × Nat × Nat × Nat × Nat) (t : Nat) =>
    let (a, b, c, d, e) := s
    let temp := (rotl32 a 5 + sha1F t b c d + e + sha1K t + w.getD t 0) % w32
    (temp, a, rotl32 b 30, c, d)
  let r := (List.range 80).foldl step (st.h0, st.h1, st.h2, st.h3, st.h4)
  ⟨(st.h0 + r.1) % w32, (st.h1 + r.2.1) % w32, (st.h2 + r.2.2.1) % w32,
    (st.h3 + r.2.2.2.1) % w32, (st.h4 + r.2.2.2.2) % w32⟩

/-- Big-endian byte rendering of a number in a fixed width. -/
def toBytesBE (width n : Nat) : List Nat :=
  match width with
  | 0 => []
  | k + 1 => toBytesBE k (n / 256) ++ [n % 256]

/-- SHA-1 padding: a 0x80 byte, zeros to 56 mod 64, and the bit length. -/
def sha1Pad (msg : List Nat) : List Nat :=
  let l := msg.length
  let zeros := (64 - (l + 9) % 64) % 64
  msg ++ [128] ++ List.replicate zeros 0 ++ toBytesBE 8 (8 * l)

/-- Fold the compression function over the 64-byte blocks of a message. -/
def sha1Blocks (st : Sha1State) (bytes : List Nat) : Sha1State :=
  match bytes with
  | [] => st
  | b :: rest =>
      sha1Blocks (sha1Compress st ((b :: rest).take 64)) ((b :: rest).drop 64)
termination_by bytes.length
decreasing_by simp [List.length_drop]; omega

/-- SHA-1 digest (20 bytes) of a byte list. -/
def sha1 (msg : List Nat) : List Nat :=
  let st := sha1Blocks
    ⟨0x67452301, 0xEFCDAB89, 0x98BADCFE, 0x10325476, 0xC3D2E1F0⟩
    (sha1Pad msg)
  toBytesBE 4 st.h0 ++ toBytesBE 4 st.h1 ++ toBytesBE 4 st.h2 ++
    toBytesBE 4 st.h3 ++ toBytesBE 4 st.h4

/-- UUIDv5 bytes: the first 16 bytes of SHA-1 over namespace and name
bytes, with the version nibble set to 5 and the RFC 4122 variant bits. -/
def uuid5Bytes (ns name : List Nat) : List Nat :=
  let d := (sha1 (ns ++ name)).take 16
  let d := d.set 6 ((d.getD 6 0) % 16 + 80)
  d.set 8 ((d.getD 8 0) % 64 + 128)

/-- Lowercase hex digit for a value below 16. -/
def hexDigitChar (n : Nat) : Char :=
  if n < 10 then Char.ofNat (48 + n) else Char.ofNat (87 + n)

/-- Two lowercase hex digits of a byte. -/
def byteToHex (b : Nat) : List Char :=
  [hexDigitChar (b / 16), hexDigitChar (b % 16)]

/-- Lowercase hex string of a byte list. -/
def bytesToHex (bs : List Nat) : String :=
  String.mk ((bs.map byteToHex).flatten)

/-- Canonical 8-4-4-4-12 string form of 16 UUID bytes, as str(uuid) gives. -/
def uuidFormat (bs : List Nat) : String :=
  bytesToHex (bs.take 4) ++ "-" ++ bytesToHex ((bs.drop 4).take 2) ++ "-" ++
    bytesToHex ((bs.drop 6).take 2) ++ "-" ++ bytesToHex ((bs.drop 8).take 2) ++
    "-" ++ bytesToHex (bs.drop 10)

/-- Bytes of the nil UUID namespace used by the chunker. -/
def nilNamespaceBytes : List Nat := List.replicate 16 0

/-- Embeds ChunkingService._generate_chunk_uuid: the UUIDv5, under the nil
namespace, of the string document_id, a colon, and the chunk index. -/
def generateChunkUuid (documentId : String) (chunkIndex : Nat) : String :=
  uuidFormat (uuid5Bytes nilNamespaceBytes
    (utf8Bytes (documentId ++ ":" ++ toString chunkIndex)))

/-- One chunk record as built by ChunkingService.chunk_document. -/
structure Chunk where
  id : String
  content : String
  chunkIndex : Nat
  documentId : String
deriving DecidableEq, Repr

/-- Embeds ChunkingService.chunk_document. The langchain text splitter is
external library code and enters as an explicit function parameter; the
service enumerates its output and attaches the derived chunk IDs. -/
def chunkDocument (splitText : String → List String) (content : String)
    (documentId : String) : List Chunk :=
  (splitText content).enum.map
    (fun p => ⟨generateChunkUuid documentId p.1, p.2, p.1, documentId⟩)

/-- Stated from the spec wording for chunk identity: UUIDv5 under the nil
namespace of the pair, rendered as document_id colon chunk_index. -/
def specChunkId (documentId : String) (chunkIndex : Nat) : String :=
  uuidFormat (uuid5Bytes nilNamespaceBytes
    (utf8Bytes (documentId ++ ":" ++ toString chunkIndex)))

/-! ### Query processor

Model of app/services/query_processor.py. Scores and confidences are
Python floats; they are modelled as rationals, which is exact for the
branch structure the claims are about. Python strings are sequences of
code points, so len and slicing act on the character list. -/

/-- Python len(s): the number of code points. -/
def strLen (s : String) : Nat := s.data.length

/-- Python s[:n]: the first n code points. -/
def strTake (s : String) (n : Nat) : String := String.mk (s.data.take n)

/-- Module constant MAX_CONTEXT_TOKENS of query_processor.py. -/
def MAX_CONTEXT_TOKENS : Nat := 8000

/-- Module constant MAX_CONTEXT_CHARS = MAX_CONTEXT_TOKENS * 4. -/
def MAX_CONTEXT_CHARS : Nat := MAX_CONTEXT_TOKENS * 4

/-- Module constant MIN_SIMILARITY_SCORE = 0.15, as a rational. -/
def MIN_SIMILARITY_SCORE : ℚ := 15 / 100

/-- One vector-search match as consumed by the query processor. -/
structure Match where
  content : String
  score : ℚ
  documentId : String
  version : Int
deriving DecidableEq, Repr

/-- One annotated source row built by process_query. -/
structure Source where
  documentId : String
  score : ℚ
  version : Int
  cited : Bool
deriving DecidableEq, Repr

/-- Pagination metadata dict attached by _paginate_sources. -/
structure Pagination where
  page : Nat
  pageSize : Nat
  total : Nat
  totalPages : Nat
  hasNext : Bool
  hasPrev : Bool
deriving DecidableEq, Repr

/-- Structured LLM answer (app/models/response.py StructuredAnswer). -/
structure StructuredAnswer where
  answer : String
  confidence : ℚ
  citations : List String
  isComplete : Bool
deriving DecidableEq, Repr

/-- Response dict returned by process_query. The zero-match early return
omits the pagination key; key absence and a None value are conflated into
into the none case here, which no modelled claim distinguishes. -/
structure QueryResponse where
  answer : String
  sources : List Source
  confidence : ℚ
  isComplete : Bool
  pagination : Option Pagination
deriving DecidableEq, Repr

/-- Embeds QueryProcessor._get_cache_key. Python's hashlib md5 hexdigest is
external code, passed as a function parameter. -/
def getCacheKey (md5hex : String → String) (query : String) : String :=
  let queryHash := md5hex query
  let cacheVersion := "v2"
  "query_response:" ++ cacheVersion ++ ":" ++ queryHash

/-- Python's two-character separator join, as used on the context parts. -/
def joinParts : List String → String
  | [] => ""
  | [p] => p
  | p :: rest => p ++ "\n\n" ++ joinParts rest

/-- Loop body of QueryProcessor._build_context: walk the matchList, keep a
running character count, append whole contents while they fit, and on the
first overflow append a prefix when more than 100 characters remain. The
remaining space is computed over the integers exactly as Python does. -/
def buildContextAux (maxChars : Nat) (matchList : List Match)
    (contextParts : List String) (totalChars : Nat)
    (usedMatches : List Match) : List String × List Match :=
  match matchList with
  | [] => (contextParts, usedMatches)
  | m :: rest =>
    let content := m.content
    let contentLength := strLen content
    let separatorLength := if contextParts.isEmpty then 0 else 2
    if totalChars + contentLength + separatorLength ≤ maxChars then
      buildContextAux maxChars rest (contextParts ++ [content])
        (totalChars + contentLength + separatorLength) (usedMatches ++ [m])
    else
      let remainingSpace : Int :=
        (maxChars : Int) - (totalChars : Int) - (separatorLength : Int)
      if remainingSpace > 100 then
        (contextParts ++ [strTake content remainingSpace.toNat],
          usedMatches ++ [m])
      else
        (contextParts, usedMatches)

/-- Embeds QueryProcessor._build_context. -/
def buildContext (matchList : List Match) : String × List Match :=
  let r := buildContextAux MAX_CONTEXT_CHARS matchList [] 0 []
  (joinParts r.1, r.2)

/-- Stated from the claim wording for context assembly: a greedy walk with
an explicit remaining budget; a match is taken whole when the separator
plus its length fits the budget, the first match that does not fit is cut
to exactly the space left after the separator provided that space exceeds
100 characters, and the walk stops there. -/
def contextTakeSpec (budget : Nat) (first : Bool) :
    List Match → List String × List Match
  | [] => ([], [])
  | m :: rest =>
    let sep := if first then 0 else 2
    if sep + strLen m.content ≤ budget then
      let r := contextTakeSpec (budget - (sep + strLen m.content)) false rest
      (m.content :: r.1, m :: r.2)
    else if budget - sep > 100 then
      ([strTake m.content (budget - sep)], [m])
    else
      ([], [])

/-- Embeds QueryProcessor._filter_sources: the confidence-gated filter. -/
def filterSources (sources : List Source) (confidence : ℚ)
    (isComplete : Bool) : List Source :=
  if confidence = 0 then []
  else if confidence < 3 / 10 ∨ isComplete = false then
    sources.filter (fun s => s.cited && decide (MIN_SIMILARITY_SCORE ≤ s.score))
  else
    sources.filter (fun s => decide (MIN_SIMILARITY_SCORE ≤ s.score))

/-- Embeds QueryProcessor._paginate_sources: slice the page and attach
metadata only when the sources overflow one page. -/
def paginateSources (sources : List Source) (page pageSize : Nat) :
    List Source × Option Pagination :=
  let totalSources := sources.length
  let startIdx := (page - 1) * pageSize
  let endIdx := startIdx + pageSize
  let paginatedSources := (sources.drop startIdx).take pageSize
  let pagination : Option Pagination :=
    if totalSources > pageSize then
      some ⟨page, pageSize, totalSources,
        (totalSources + pageSize - 1) / pageSize,
        decide (endIdx < totalSources), decide (page > 1)⟩
    else none
  (paginatedSources, pagination)

/-- Cache state: the Redis keyspace relevant to query responses, as an
association list from key to stored response. -/
abbrev Cache := List (String × QueryResponse)

/-- CacheService.get_json on the modelled keyspace. -/
def cacheGetJson (cache : Cache) (key : String) : Option QueryResponse :=
  (cache.find? (fun e => e.1 == key)).map (fun e => e.2)

/-- CacheService.set_json on the modelled keyspace (SETEX overwrites). -/
def cacheSetJson (cache : Cache) (key : String) (value : QueryResponse) :
    Cache :=
  (key, value) :: cache.filter (fun e => e.1 != key)

/-- CacheService.delete on the modelled keyspace. -/
def cacheDeleteKey (cache : Cache) (key : String) : Cache :=
  cache.filter (fun e => e.1 != key)

/-- Python sorted with key score and reverse true: a stable descending
sort on the score. -/
def sortMatchesByScore (matchList : List Match) : List Match :=
  matchList.mergeSort (fun a b => decide (b.score ≤ a.score))

/-- Response returned on the zero-match early path of process_query. -/
def noMatchResponse : QueryResponse :=
  { answer := "I couldn\x27t find relevant information to answer your question."
    sources := []
    confidence := 0
    isComplete := false
    pagination := none }

/-- Embeds QueryProcessor.process_query. External dependencies enter as
functions: md5hex for the cache key hash, embed for the embedding
service, search for the vector store and llm for the structured LLM
call. The cache is threaded explicitly; the returned pair is the
response and the cache state after the call. -/
def processQuery (md5hex : String → String) (embed : String → List ℚ)
    (search : List ℚ → Nat → List Match)
    (llm : String → String → List String → StructuredAnswer)
    (cache : Cache) (query : String) (topK : Nat)
    (page : Nat) (pageSize : Nat) : QueryResponse × Cache :=
  let cacheKey := getCacheKey md5hex query
  match cacheGetJson cache cacheKey with
  | some cachedResponse => (cachedResponse, cache)
  | none =>
    let queryEmbedding := embed query
    let matchList := search queryEmbedding topK
    if matchList.isEmpty then
      (noMatchResponse, cache)
    else
      let sorted := sortMatchesByScore matchList
      let cu := buildContext sorted
      let documentIds := cu.2.filterMap
        (fun m => if m.documentId != "" then some m.documentId else none)
      let structuredResponse := llm query cu.1 documentIds
      let sources := cu.2.map (fun m =>
        { documentId := m.documentId
          score := m.score
          version := m.version
          cited := structuredResponse.citations.contains m.documentId })
      let filtered := filterSources sources structuredResponse.confidence
        structuredResponse.isComplete
      let pp := paginateSources filtered page pageSize
      let response : QueryResponse :=
        { answer := structuredResponse.answer
          sources := pp.1
          confidence := structuredResponse.confidence
          isComplete := structuredResponse.isComplete
          pagination := pp.2 }
      (response, cacheSetJson cache cacheKey response)

/-! ### Retry helper

Model of app/services/retry.py. The operation is indexed by the attempt
number, so one run of the helper is a pure function of the per-attempt
outcomes; the backoff sleeps are returned as a list of waits. -/

/-- Default settings.max_retries (app/core/config.py). -/
def settingsMaxRetries : Nat := 3

/-- Default settings.retry_delay_seconds. -/
def settingsRetryDelaySeconds : ℚ := 1

/-- Default settings.retry_backoff_multiplier. -/
def settingsRetryBackoffMultiplier : ℚ := 2

/-- Python's x or default on an optional count: None and zero both fall
back to the default, since zero is falsy. -/
def pyOrNat (x : Option Nat) (d : Nat) : Nat :=
  match x with
  | some n => if n != 0 then n else d
  | none => d

/-- Python's x or default on an optional numeric argument. -/
def pyOrRat (x : Option ℚ) (d : ℚ) : ℚ :=
  match x with
  | some q => if q != 0 then q else d
  | none => d

/-- Observable outcome of one run of the retry helper: the returned value
or re-raised error, the number of times the operation ran, and the
backoff waits slept between attempts. -/
structure RetryOutcome (ε α : Type) where
  result : Except ε α
  invocations : Nat
  waits : List ℚ
deriving Repr

/-- Loop of retry_with_backoff from a given attempt index: run the
attempt; on success stop; on an error of a retried class either wait
delay times multiplier to the attempt and continue or, past the last
attempt, re-raise; an error outside the retried classes is not caught
and propagates at once. -/
def retryFrom (op : Nat → Except ε α) (retriable : ε → Bool)
    (delay backoffMultiplier : ℚ) :
    Nat → Nat → RetryOutcome ε α
  | remaining, attempt =>
    match op attempt with
    | .ok a => ⟨.ok a, attempt + 1, []⟩
    | .error e =>
      if retriable e then
        match remaining with
        | 0 => ⟨.error e, attempt + 1, []⟩
        | r + 1 =>
          let waitTime := delay * backoffMultiplier ^ attempt
          let res := retryFrom op retriable delay backoffMultiplier r
            (attempt + 1)
          ⟨res.result, res.invocations, waitTime :: res.waits⟩
      else ⟨.error e, attempt + 1, []⟩

/-- Embeds retry_with_backoff: Python-or default handling of the optional
arguments (so an explicit zero falls back to the setting), then the loop
from attempt zero; the remaining-attempt count starts at the effective
max_retries, matching the attempt < max_retries guard of the loop. -/
def retryWithBackoff (op : Nat → Except ε α) (maxRetries : Option Nat)
    (delay : Option ℚ) (backoffMultiplier : Option ℚ)
    (retriable : ε → Bool) : RetryOutcome ε α :=
  retryFrom op retriable (pyOrRat delay settingsRetryDelaySeconds)
    (pyOrRat backoffMultiplier settingsRetryBackoffMultiplier)
    (pyOrNat maxRetries settingsMaxRetries) 0

/-! ### CDC events and the event processor

Model of app/models/event.py and app/services/event_processor.py. -/

/-- DocumentEvent (app/models/event.py). The source field is always the
empty dict where the processor builds events and is read nowhere, so it
is omitted. -/
structure DocumentEvent where
  op : String
  before : Option Payload
  after : Option Payload
  tsMs : Option Int
deriving DecidableEq, Repr

/-- Embeds EventProcessor._parse_event. Wall time enters as the now
argument. The error case is pydantic validation of the constructed
DocumentEvent: op must be a string and the timestamp an integer
(pydantic's numeric-string coercion is not modelled; no claim reaches
it). The ok none case is the dropped event. -/
def parseEvent (now : Int) (eventData : Payload) :
    Except Unit (Option DocumentEvent) :=
  let op0 := pyOr (pyGet eventData "__op") (pyGetD eventData "op" (.vStr "c"))
  let tsMs0 := pyOrOpt (pyGet eventData "__source_ts_ms")
    (pyGet eventData "ts_ms")
  let op1 := if pyGet eventData "__deleted" == some (.vStr "true")
    then PyVal.vStr "d" else op0
  let filteredData := eventData.filter (fun e => !(pyStartsWith e.1 "__"))
  if filteredData.isEmpty then .ok none
  else
    let beforeData := if op1 == PyVal.vStr "d" then some filteredData else none
    let afterData := if op1 == PyVal.vStr "d" then none else some filteredData
    match op1, pyOr tsMs0 (.vInt now) with
    | .vStr s, .vInt t => .ok (some ⟨s, beforeData, afterData, some t⟩)
    | _, _ => .error ()

/-- Stated from the claim wording for operation derivation: take the op
from the __op key when that key is present, else from the op key, else
the default c, and force d when __deleted is the string true. -/
def claimedOp (eventData : Payload) : PyVal :=
  let base := match pyGet eventData "__op" with
    | some v => v
    | none => pyGetD eventData "op" (.vStr "c")
  if pyGet eventData "__deleted" == some (.vStr "true")
    then .vStr "d" else base

/-- Characters Python strips around an integer literal. -/
def isPySpace (c : Char) : Bool :=
  c == ' ' || c == '\t' || c == '\n' || c == '\r' ||
    c == Char.ofNat 12 || c == Char.ofNat 11

/-- Value of one hexadecimal digit. -/
def hexDigitVal (c : Char) : Option Nat :=
  if 48 ≤ c.toNat ∧ c.toNat ≤ 57 then some (c.toNat - 48)
  else if 97 ≤ c.toNat ∧ c.toNat ≤ 102 then some (c.toNat - 87)
  else if 65 ≤ c.toNat ∧ c.toNat ≤ 70 then some (c.toNat - 55)
  else none

/-- Hexadecimal digits with single underscores allowed between digits. -/
def hexDigitsVal (acc : Nat) : List Char → Option Nat
  | [] => some acc
  | '_' :: c :: rest =>
    match hexDigitVal c with
    | some v => hexDigitsVal (acc * 16 + v) rest
    | none => none
  | c :: rest =>
    match hexDigitVal c with
    | some v => hexDigitsVal (acc * 16 + v) rest
    | none => none

/-- Python int(s, 16): optional surrounding whitespace, an optional sign,
an optional 0x prefix (an underscore may follow it), then hexadecimal
digits separated by single underscores. -/
def pyIntHex (s : String) : Option Int :=
  let chars := ((s.data.dropWhile isPySpace).reverse.dropWhile
    isPySpace).reverse
  let signed : Int × List Char :=
    match chars with
    | '+' :: r => (1, r)
    | '-' :: r => (-1, r)
    | r => (1, r)
  let pfx : Bool × List Char :=
    match signed.2 with
    | '0' :: 'x' :: r => (true, r)
    | '0' :: 'X' :: r => (true, r)
    | r => (false, r)
  let body := if pfx.1 then
      match pfx.2 with
      | '_' :: c :: r => c :: r
      | r => r
    else pfx.2
  match body with
  | [] => none
  | c :: r =>
    match hexDigitVal c with
    | some v => (hexDigitsVal v r).map (fun n => signed.1 * (n : Int))
    | none => none

/-- Removal of every occurrence of a pattern, fuelled by the input
length so the recursion is structural; the fuel never runs out when it
starts at the length of the list. -/
def removeOccAux (pat : List Char) : Nat → List Char → List Char
  | _, [] => []
  | 0, l => l
  | fuel + 1, c :: rest =>
    if pat ≠ [] ∧ (c :: rest).take pat.length = pat then
      removeOccAux pat fuel ((c :: rest).drop pat.length)
    else c :: removeOccAux pat fuel rest

/-- Removes every occurrence of a pattern from a character list, as
Python str.replace with the empty replacement does. -/
def removeOccurrences (pat : List Char) (l : List Char) : List Char :=
  removeOccAux pat l.length l

/-- Python str.strip on the two curly brace characters. -/
def stripBraces (l : List Char) : List Char :=
  let isBrace := fun c => c == Char.ofNat 123 || c == Char.ofNat 125
  ((l.dropWhile isBrace).reverse.dropWhile isBrace).reverse

/-- Embeds the CPython uuid.UUID(hex=...) constructor applied to a
string: remove urn: and uuid: markers, strip braces, drop hyphens,
demand exactly 32 remaining characters, read them as a Python base-16
literal and range-check the value. The none case is the raised
ValueError. -/
def pythonUuidInt (s : String) : Option Nat :=
  let h1 := removeOccurrences "uuid:".data
    (removeOccurrences "urn:".data s.data)
  let h2 := removeOccurrences ['-'] (stripBraces h1)
  if h2.length ≠ 32 then none
  else
    match pyIntHex (String.mk h2) with
    | some n => if 0 ≤ n ∧ n < 2 ^ 128 then some n.toNat else none
    | none => none

/-- Canonical string of the UUID with a given 128-bit value, as str()
renders a Python UUID. -/
def uuidIntToString (n : Nat) : String :=
  uuidFormat (toBytesBE 16 n)

/-- Whether a payload value passes the UUID constructor: only strings the
constructor accepts do; any other value raises inside it. -/
def isValidUuidVal : PyVal → Bool
  | .vStr s => (pythonUuidInt s).isSome
  | _ => false

/-- Embeds DocumentEvent.get_document_id: read the id field of after or
before (Python-or, so an empty after falls through); a present id whose
value does not parse as a UUID is the raised error. -/
def getDocumentId (e : DocumentEvent) : Except Unit (Option Nat) :=
  let data := match e.after with
    | some a => if a.isEmpty then e.before else some a
    | none => e.before
  match data with
  | none => .ok none
  | some d =>
    if d.isEmpty then .ok none
    else
      match pyGet d "id" with
      | none => .ok none
      | some (.vStr s) =>
        match pythonUuidInt s with
        | some n => .ok (some n)
        | none => .error ()
      | some _ => .error ()

/-- Externally visible side effects of event processing tracked by the
model: vector-store chunk deletions and cache deletions. -/
inductive Effect where
  | vdbDeleteChunks : String → Effect
  | cacheDelete : String → Effect
deriving DecidableEq, Repr

/-- Error raised by an external call; isVectorDb marks VectorDBError,
the retried class of the upsert call. -/
structure PyError where
  isVectorDb : Bool
deriving DecidableEq, Repr

/-- Environment of the event processor: the external services. Fallible
calls are indexed by the retry attempt number so the retry helper can
run over them. -/
structure EventEnv where
  splitText : String → List String
  embedAttempt : List String → Nat → Except PyError (List (List ℚ))
  upsertAttempt : List Chunk → List (List ℚ) → String → PyVal → Nat →
    Except PyError Unit
  vdbDeleteOutcome : String → Except PyError Unit

/-- Effects of one handler run, and whether it raised. -/
structure HandlerResult where
  effects : List Effect
  raised : Bool
deriving DecidableEq, Repr

/-- Embeds EventProcessor._handle_delete: resolve the document ID (a
missing ID is a logged warning and a plain return, a malformed one
raises); then call the vector-store deletion, whose failure
propagates. -/
def handleDelete (env : EventEnv) (event : DocumentEvent) : HandlerResult :=
  match getDocumentId event with
  | .error _ => ⟨[], true⟩
  | .ok none => ⟨[], false⟩
  | .ok (some n) =>
    let ds := uuidIntToString n
    match env.vdbDeleteOutcome ds with
    | .ok _ => ⟨[Effect.vdbDeleteChunks ds], false⟩
    | .error _ => ⟨[Effect.vdbDeleteChunks ds], true⟩

/-- Truthiness of a Python optional value, None being falsy. -/
def optTruthy : Option PyVal → Bool
  | some v => v.truthy
  | none => false

/-- Embeds EventProcessor._handle_create_or_update: guard the required
fields, chunk, embed under retry on any error, upsert under retry on
VectorDBError, and on success delete the query:id cache key. Metric
observations and the pipeline tracker carry no modelled state; chunking
a non-string content raises inside the splitter. -/
def handleCreateOrUpdate (env : EventEnv) (event : DocumentEvent) :
    HandlerResult :=
  match event.after with
  | none => ⟨[], false⟩
  | some afterData =>
    if afterData.isEmpty then ⟨[], false⟩
    else
      let documentId := pyGet afterData "id"
      let content := pyGetD afterData "content" (.vStr "")
      let version := pyGetD afterData "version" (.vInt 1)
      if !optTruthy documentId || !content.truthy then ⟨[], false⟩
      else
        let docStr := (pyGetD afterData "id" .vNull).pyStr
        match content with
        | .vStr contentStr =>
          let chunks := chunkDocument env.splitText contentStr docStr
          if chunks.isEmpty then ⟨[], false⟩
          else
            let texts := chunks.map (fun c => c.content)
            let er := retryWithBackoff (env.embedAttempt texts) none none
              none (fun _ => true)
            match er.result with
            | .error _ => ⟨[], true⟩
            | .ok embeddings =>
              let ur := retryWithBackoff
                (env.upsertAttempt chunks embeddings docStr version)
                none none none (fun e => e.isVectorDb)
              match ur.result with
              | .error _ => ⟨[], true⟩
              | .ok _ => ⟨[Effect.cacheDelete ("query:" ++ docStr)], false⟩
        | _ => ⟨[], true⟩

/-- Counters and outcome of one process_event call: whether it re-raised,
the increments of updates_total and update_errors_total, and the
tracked effects. -/
structure ProcessOutcome where
  raised : Bool
  updatesIncrement : Nat
  errorsIncrement : Nat
  effects : List Effect
deriving DecidableEq, Repr

/-- Embeds EventProcessor.process_event: parse, increment updates_total
once the parse produced a non-dropped event, dispatch on the op, and on
any raised error increment update_errors_total and re-raise. -/
def processEvent (env : EventEnv) (now : Int) (eventData : Payload) :
    ProcessOutcome :=
  match parseEvent now eventData with
  | .error _ => ⟨true, 0, 1, []⟩
  | .ok none => ⟨false, 0, 0, []⟩
  | .ok (some event) =>
    if event.op == "d" then
      let r := handleDelete env event
      ⟨r.raised, 1, if r.raised then 1 else 0, r.effects⟩
    else if event.op == "c" || event.op == "u" then
      let r := handleCreateOrUpdate env event
      ⟨r.raised, 1, if r.raised then 1 else 0, r.effects⟩
    else ⟨false, 1, 0, []⟩

/-- Inert environment used to evaluate the model at concrete events. -/
def trivialEnv : EventEnv where
  splitText := fun s => [s]
  embedAttempt := fun _ _ => .ok []
  upsertAttempt := fun _ _ _ _ _ => .ok ()
  vdbDeleteOutcome := fun _ => .ok ()

/-! ## Theorems -/

/-- Python string length adds over concatenation. -/
theorem strLen_append (a b : String) : strLen (a ++ b) = strLen a + strLen b := by
  simp [strLen, String.data_append]

/-- A Python prefix slice has length at most the requested size. -/
theorem strLen_strTake_le (s : String) (n : Nat) : strLen (strTake s n) ≤ n := by
  simp only [strLen, strTake]
  rw [List.length_take]
  exact Nat.min_le_left _ _

/-- Claim C1: chunk IDs equal the UUIDv5 of the nil namespace applied to
the document ID, a colon and the chunk index; they depend on nothing but
that pair, so re-chunking the same document (even with different content
or a different splitter outcome) reproduces the ID at every index. -/
theorem chunk_ids_deterministic (split1 split2 : String → List String)
    (content1 content2 documentId : String) (i : Nat)
    (h1 : i < (chunkDocument split1 content1 documentId).length)
    (h2 : i < (chunkDocument split2 content2 documentId).length) :
    ((chunkDocument split1 content1 documentId).get ⟨i, h1⟩).id =
      specChunkId documentId i ∧
    ((chunkDocument split1 content1 documentId).get ⟨i, h1⟩).id =
      ((chunkDocument split2 content2 documentId).get ⟨i, h2⟩).id := by
  have key : ∀ (f : String → List String) (c : String)
      (h : i < (chunkDocument f c documentId).length),
      ((chunkDocument f c documentId).get ⟨i, h⟩).id =
        specChunkId documentId i := by
    intro f c h
    simp only [chunkDocument] at h ⊢
    rw [List.get_eq_getElem, List.getElem_map]
    simp [List.getElem_enum, generateChunkUuid, specChunkId]
  exact ⟨key split1 content1 h1,
    (key split1 content1 h1).trans (key split2 content2 h2).symm⟩

/-- Witness for C1 at a concrete splitter, content and document. -/
theorem chunk_ids_deterministic_witness :
    ((chunkDocument (fun s => [s]) "alpha" "doc").get ⟨0, by decide⟩).id =
      specChunkId "doc" 0 :=
  (chunk_ids_deterministic (fun s => [s]) (fun _ => ["x", "y"]) "alpha"
    "beta" "doc" 0 (by decide) (by decide)).1

/-- Claim C4: the confidence gate drops everything at zero confidence,
keeps only cited sources scoring at least 0.15 at low confidence or
incomplete answers, keeps every source scoring at least 0.15 otherwise,
and preserves relative order. -/
theorem filterSources_gate (sources : List Source) (confidence : ℚ)
    (isComplete : Bool) :
    (confidence = 0 → filterSources sources confidence isComplete = []) ∧
    (confidence ≠ 0 → (confidence < 3 / 10 ∨ isComplete = false) →
      filterSources sources confidence isComplete =
        sources.filter (fun s => s.cited && decide ((15 : ℚ) / 100 ≤ s.score))) ∧
    (confidence ≠ 0 → ¬(confidence < 3 / 10) → isComplete = true →
      filterSources sources confidence isComplete =
        sources.filter (fun s => decide ((15 : ℚ) / 100 ≤ s.score))) ∧
    List.Sublist (filterSources sources confidence isComplete) sources := by
  refine ⟨?_, ?_, ?_, ?_⟩
  · intro h
    simp [filterSources, h]
  · intro h1 h2
    simp only [filterSources, MIN_SIMILARITY_SCORE]
    rw [if_neg h1, if_pos h2]
  · intro h1 h2 h3
    simp only [filterSources, MIN_SIMILARITY_SCORE]
    rw [if_neg h1, if_neg (by simp [h2, h3])]
  · unfold filterSources
    split
    · exact List.nil_sublist _
    · split
      · exact List.filter_sublist _
      · exact List.filter_sublist _

/-- Witness for C4 in the high-confidence complete branch. -/
theorem filterSources_gate_witness :
    filterSources [⟨"a", 1 / 5, 1, false⟩, ⟨"b", 1 / 10, 1, true⟩]
      (1 / 2) true = [⟨"a", 1 / 5, 1, false⟩] := by
  rw [(filterSources_gate [⟨"a", 1 / 5, 1, false⟩, ⟨"b", 1 / 10, 1, true⟩]
    (1 / 2) true).2.2.1 (by norm_num) (by norm_num) rfl]
  norm_num [List.filter_cons, List.filter_nil]

/-- Claim C6: on a cache miss with zero vector matches, process_query
returns the fixed no-information response and leaves the cache alone. -/
theorem processQuery_zeroMatches (md5hex : String → String)
    (embed : String → List ℚ) (search : List ℚ → Nat → List Match)
    (llm : String → String → List String → StructuredAnswer)
    (cache : Cache) (query : String) (topK page pageSize : Nat)
    (hmiss : cacheGetJson cache (getCacheKey md5hex query) = none)
    (hzero : search (embed query) topK = []) :
    processQuery md5hex embed search llm cache query topK page pageSize =
      (noMatchResponse, cache) ∧
    noMatchResponse =
      ⟨"I couldn\x27t find relevant information to answer your question.",
        [], 0, false, none⟩ := by
  constructor
  · simp [processQuery, hmiss, hzero]
  · rfl

/-- Witness for C6 at a concrete query over an empty store. -/
theorem processQuery_zeroMatches_witness :
    processQuery (fun _ => "h") (fun _ => []) (fun _ _ => [])
      (fun _ _ _ => ⟨"a", 1, [], true⟩) [] "hello" 5 1 10 =
      (noMatchResponse, []) :=
  (processQuery_zeroMatches (fun _ => "h") (fun _ => []) (fun _ _ => [])
    (fun _ _ _ => ⟨"a", 1, [], true⟩) [] "hello" 5 1 10 rfl rfl).1

/-- Claim C7: pagination returns the requested slice, never more than a
page of sources; metadata appears exactly when the sources overflow one
page, and then records the ceiling page count and the navigation flags. -/
theorem paginateSources_spec (sources : List Source) (page pageSize : Nat)
    (hpage : 1 ≤ page) (hsize : 1 ≤ pageSize) :
    (paginateSources sources page pageSize).1.length ≤ pageSize ∧
    (∀ i : Nat, ((paginateSources sources page pageSize).1)[i]? =
      if i < pageSize then sources[(page - 1) * pageSize + i]? else none) ∧
    ((paginateSources sources page pageSize).2.isSome = true ↔
      pageSize < sources.length) ∧
    (∀ m : Pagination, (paginateSources sources page pageSize).2 = some m →
      ((m.totalPages : ℤ) = ⌈(sources.length : ℚ) / (pageSize : ℚ)⌉ ∧
        (m.hasNext = true ↔ page * pageSize < sources.length) ∧
        (m.hasPrev = true ↔ 1 < page) ∧
        m.page = page ∧ m.pageSize = pageSize ∧ m.total = sources.length)) := by
  obtain ⟨n, rfl⟩ : ∃ n, page = n + 1 := ⟨page - 1, by omega⟩
  obtain ⟨p1, rfl⟩ : ∃ p1, pageSize = p1 + 1 := ⟨pageSize - 1, by omega⟩
  refine ⟨?_, ?_, ?_, ?_⟩
  · simp only [paginateSources, List.length_take]
    omega
  · intro i
    simp [paginateSources, List.getElem?_take, List.getElem?_drop]
  · simp only [paginateSources]
    split
    case isTrue hgt => exact iff_of_true rfl hgt
    case isFalse hle => exact iff_of_false (by simp) hle
  · intro m hm
    simp only [paginateSources] at hm
    split at hm
    case isTrue hgt =>
      obtain rfl : (⟨n + 1, p1 + 1, sources.length,
          (sources.length + (p1 + 1) - 1) / (p1 + 1),
          decide ((n + 1 - 1) * (p1 + 1) + (p1 + 1) < sources.length),
          decide (n + 1 > 1)⟩ : Pagination) = m := Option.some.inj hm
      have hlen : sources.length + (p1 + 1) - 1 = sources.length + p1 := by
        omega
      refine ⟨?_, ?_, ?_, rfl, rfl, rfl⟩
      · dsimp only
        simp only [hlen]
        generalize hD : (sources.length + p1) / (p1 + 1) = D
        have h1 : D * (p1 + 1) ≤ sources.length + p1 :=
          hD ▸ Nat.div_mul_le_self _ _
        have h2' : sources.length + p1 < (p1 + 1) * D + (p1 + 1) := by
          calc sources.length + p1 <
              (p1 + 1) * ((sources.length + p1) / (p1 + 1) + 1) :=
                Nat.lt_mul_div_succ _ (Nat.succ_pos p1)
            _ = (p1 + 1) * D + (p1 + 1) := by rw [hD]; ring
        have hA : sources.length ≤ (p1 + 1) * D := by linarith
        have hq : (0 : ℚ) < (p1 : ℚ) + 1 := by positivity
        have h1Q : (D : ℚ) * ((p1 : ℚ) + 1) ≤
            (sources.length : ℚ) + (p1 : ℚ) := by exact_mod_cast h1
        have hAQ : (sources.length : ℚ) ≤ ((p1 : ℚ) + 1) * (D : ℚ) := by
          exact_mod_cast hA
        symm
        rw [Int.ceil_eq_iff]
        push_cast
        constructor
        · rw [lt_div_iff₀ hq]
          linarith
        · rw [div_le_iff₀ hq]
          linarith
      · simp only [Pagination.hasNext, decide_eq_true_eq]
        have he : (n + 1 - 1) * (p1 + 1) + (p1 + 1) = (n + 1) * (p1 + 1) := by
          simp [Nat.succ_mul]
        rw [he]
      · simp
    case isFalse => exact absurd hm (by simp)

/-- Python's join over a nonempty tail prepends the head and one
separator. -/
theorem joinParts_cons_ne (p : String) (l : List String) (h : l ≠ []) :
    joinParts (p :: l) = p ++ "\n\n" ++ joinParts l := by
  cases l with
  | nil => exact absurd rfl h
  | cons x xs => rfl

/-- Length of a join after appending one more part: one part alone costs
its length, any later part costs the separator too. -/
theorem strLen_joinParts_append (ps : List String) (q : String) :
    strLen (joinParts (ps ++ [q])) =
      (if ps.isEmpty then 0 else strLen (joinParts ps) + 2) + strLen q := by
  induction ps with
  | nil => simp [joinParts]
  | cons p ps' ih =>
    cases ps' with
    | nil =>
      simp only [List.cons_append, List.nil_append, List.isEmpty_cons,
        if_neg Bool.false_ne_true]
      rw [joinParts_cons_ne p [q] (by simp)]
      simp [joinParts, strLen_append]
      rfl
    | cons x xs =>
      rw [List.cons_append,
        joinParts_cons_ne p ((x :: xs) ++ [q]) (by simp),
        joinParts_cons_ne p (x :: xs) (by simp)]
      simp only [List.isEmpty_cons, if_neg Bool.false_ne_true] at ih ⊢
      simp only [strLen_append, ih]
      have h2 : strLen "\n\n" = 2 := rfl
      omega

/-- Helper for C3: the accumulator form of the loop agrees with the
budget-recursive statement of the walk, relative to the invariant that
the running count is the length of the join of the accumulated parts. -/
theorem buildContextAux_eq_spec (maxChars : Nat) :
    ∀ (ms : List Match) (parts : List String) (total : Nat)
      (used : List Match),
    strLen (joinParts parts) = total → total ≤ maxChars →
    buildContextAux maxChars ms parts total used =
      (parts ++ (contextTakeSpec (maxChars - total) parts.isEmpty ms).1,
       used ++ (contextTakeSpec (maxChars - total) parts.isEmpty ms).2) := by
  intro ms
  induction ms with
  | nil =>
    intro parts total used hinv hle
    simp [buildContextAux, contextTakeSpec]
  | cons m rest ih =>
    intro parts total used hinv hle
    simp only [buildContextAux, contextTakeSpec]
    generalize hsep : (if parts.isEmpty = true then (0 : Nat) else 2) = sep
    have htot0 : parts.isEmpty = true → total = 0 := by
      intro hpe
      obtain rfl : parts = [] := List.isEmpty_iff.mp hpe
      simpa [joinParts, strLen] using hinv.symm
    have hsep02 : sep = 0 ∨ sep = 2 := by
      by_cases hpe : parts.isEmpty = true
      · rw [if_pos hpe] at hsep
        exact Or.inl hsep.symm
      · rw [if_neg hpe] at hsep
        exact Or.inr hsep.symm
    by_cases hfit : total + strLen m.content + sep ≤ maxChars
    · rw [if_pos hfit,
        if_pos (show sep + strLen m.content ≤ maxChars - total from by omega)]
      have hinv' : strLen (joinParts (parts ++ [m.content])) =
          total + strLen m.content + sep := by
        rw [strLen_joinParts_append]
        by_cases hpe : parts.isEmpty = true
        · rw [if_pos hpe] at hsep
          rw [if_pos hpe]
          have := htot0 hpe
          omega
        · rw [if_neg hpe] at hsep
          rw [if_neg hpe, hinv]
          omega
      rw [ih (parts ++ [m.content]) (total + strLen m.content + sep)
        (used ++ [m]) hinv' hfit]
      have hbud : maxChars - (total + strLen m.content + sep) =
          maxChars - total - (sep + strLen m.content) := by omega
      have hne : (parts ++ [m.content]).isEmpty = false := by simp
      rw [hbud, hne]
      simp
    · rw [if_neg hfit,
        if_neg (show ¬(sep + strLen m.content ≤ maxChars - total) from by
          omega)]
      by_cases htr : ((maxChars : Int) - (total : Int) - (sep : Int)) > 100
      · rw [if_pos htr,
          if_pos (show maxChars - total - sep > 100 from by omega)]
        have htn : ((maxChars : Int) - (total : Int) - (sep : Int)).toNat =
            maxChars - total - sep := by omega
        rw [htn]
      · rw [if_neg htr,
          if_neg (show ¬(maxChars - total - sep > 100) from by omega)]
        simp

/-- Helper for C3: the loop keeps the joined context within the budget,
relative to the same invariant. -/
theorem buildContextAux_len (maxChars : Nat) :
    ∀ (ms : List Match) (parts : List String) (total : Nat)
      (used : List Match),
    strLen (joinParts parts) = total → total ≤ maxChars →
    strLen (joinParts (buildContextAux maxChars ms parts total used).1) ≤
      maxChars := by
  intro ms
  induction ms with
  | nil =>
    intro parts total used hinv hle
    simpa [buildContextAux, hinv] using hle
  | cons m rest ih =>
    intro parts total used hinv hle
    simp only [buildContextAux]
    generalize hsep : (if parts.isEmpty = true then (0 : Nat) else 2) = sep
    have htot0 : parts.isEmpty = true → total = 0 := by
      intro hpe
      obtain rfl : parts = [] := List.isEmpty_iff.mp hpe
      simpa [joinParts, strLen] using hinv.symm
    by_cases hfit : total + strLen m.content + sep ≤ maxChars
    · rw [if_pos hfit]
      have hinv' : strLen (joinParts (parts ++ [m.content])) =
          total + strLen m.content + sep := by
        rw [strLen_joinParts_append]
        by_cases hpe : parts.isEmpty = true
        · rw [if_pos hpe] at hsep
          rw [if_pos hpe]
          have := htot0 hpe
          omega
        · rw [if_neg hpe] at hsep
          rw [if_neg hpe, hinv]
          omega
      exact ih (parts ++ [m.content]) _ (used ++ [m]) hinv' hfit
    · rw [if_neg hfit]
      by_cases htr : ((maxChars : Int) - (total : Int) - (sep : Int)) > 100
      · rw [if_pos htr]
        dsimp only
        rw [strLen_joinParts_append]
        have htk := strLen_strTake_le m.content
          ((maxChars : Int) - (total : Int) - (sep : Int)).toNat
        by_cases hpe : parts.isEmpty = true
        · rw [if_pos hpe] at hsep
          have := htot0 hpe
          rw [if_pos hpe]
          omega
        · rw [if_neg hpe] at hsep
          rw [if_neg hpe, hinv]
          omega
      · rw [if_neg htr]
        simpa [hinv] using hle

/-- Claim C3: the assembled context is the two-newline join of the walk
that takes whole matches while they fit the 32000-character budget
(counting the separator for every part after the first), cuts the first
overflowing match to exactly the remaining space when more than 100
characters remain, and stops there; used matches are exactly the
included ones in order, and the result never exceeds the budget. -/
theorem buildContext_spec (ms : List Match) :
    MAX_CONTEXT_CHARS = 32000 ∧
    buildContext ms =
      (joinParts (contextTakeSpec MAX_CONTEXT_CHARS true ms).1,
        (contextTakeSpec MAX_CONTEXT_CHARS true ms).2) ∧
    strLen (buildContext ms).1 ≤ 32000 := by
  refine ⟨rfl, ?_, ?_⟩
  · unfold buildContext
    rw [buildContextAux_eq_spec MAX_CONTEXT_CHARS ms [] 0 [] rfl
      (Nat.zero_le _)]
    simp
  · have h := buildContextAux_len MAX_CONTEXT_CHARS ms [] 0 [] rfl
      (Nat.zero_le _)
    unfold buildContext
    exact h

/-- Helper for C9: the invalidation key differs from every query cache
key, whatever the hash digest is, because the two differ at the sixth
character already. -/
theorem invalidationKey_ne_cacheKey (md5hex : String → String)
    (documentId query : String) :
    "query:" ++ documentId ≠ getCacheKey md5hex query := by
  intro heq
  have hchar := congrArg (fun s => s.data[5]?) heq
  simp only at hchar
  rw [String.data_append, List.getElem?_append_left (by decide)] at hchar
  conv at hchar =>
    rw [getCacheKey, String.data_append,
      List.getElem?_append_left (by decide)]
  exact absurd hchar (by decide)

/-- Claim C9: the cache key deleted by the update path never coincides
with any key the query path stores responses under, so a cache holding
only query responses is untouched by the invalidation delete; the update
path only ever deletes keys of the query:document_id shape. -/
theorem cacheInvalidation_noop (md5hex : String → String)
    (documentId query : String) (cache : Cache)
    (hkeys : ∀ e ∈ cache, ∃ q, e.1 = getCacheKey md5hex q) :
    "query:" ++ documentId ≠ getCacheKey md5hex query ∧
    cacheDeleteKey cache ("query:" ++ documentId) = cache ∧
    (∀ env event, (handleCreateOrUpdate env event).effects = [] ∨
      ∃ d, (handleCreateOrUpdate env event).effects =
        [Effect.cacheDelete ("query:" ++ d)]) := by
  refine ⟨invalidationKey_ne_cacheKey md5hex documentId query, ?_, ?_⟩
  · apply List.filter_eq_self.mpr
    intro e he
    obtain ⟨q, hq⟩ := hkeys e he
    simp only [bne_iff_ne, ne_eq, hq]
    exact fun hc => invalidationKey_ne_cacheKey md5hex documentId q hc.symm
  · intro env event
    unfold handleCreateOrUpdate
    cases event.after with
    | none => exact Or.inl rfl
    | some afterData =>
      dsimp only
      split
      · exact Or.inl rfl
      · split
        · exact Or.inl rfl
        · split
          · split
            · exact Or.inl rfl
            · split
              · exact Or.inl rfl
              · split
                · exact Or.inl rfl
                · exact Or.inr ⟨(pyGetD afterData "id" .vNull).pyStr, rfl⟩
          · exact Or.inl rfl

/-- Witness for C9: a cache holding one stored query response survives
the invalidation delete of a concrete document. -/
theorem cacheInvalidation_noop_witness :
    cacheDeleteKey [(getCacheKey (fun _ => "aa") "q1", noMatchResponse)]
      ("query:" ++ "doc") =
      [(getCacheKey (fun _ => "aa") "q1", noMatchResponse)] :=
  (cacheInvalidation_noop (fun _ => "aa") "doc" "q1"
    [(getCacheKey (fun _ => "aa") "q1", noMatchResponse)]
    (by
      intro e he
      rw [List.mem_singleton] at he
      exact ⟨"q1", by rw [he]⟩)).2.1

/-- Structure of a successfully parsed, non-dropped event: the filtered
payload is nonempty, the parsed op is the __deleted-forced Python-or
derivation, and the filtered fields are bound to before exactly for op
d, to after otherwise. -/
theorem parseEvent_ok_some (now : Int) (p : Payload) (e : DocumentEvent)
    (h : parseEvent now p = Except.ok (some e)) :
    (p.filter (fun x => !(pyStartsWith x.1 "__"))).isEmpty = false ∧
    PyVal.vStr e.op = (if pyGet p "__deleted" == some (PyVal.vStr "true")
      then PyVal.vStr "d"
      else pyOr (pyGet p "__op") (pyGetD p "op" (PyVal.vStr "c"))) ∧
    (e.op = "d" →
      e.before = some (p.filter (fun x => !(pyStartsWith x.1 "__"))) ∧
      e.after = none) ∧
    (e.op ≠ "d" →
      e.after = some (p.filter (fun x => !(pyStartsWith x.1 "__"))) ∧
      e.before = none) := by
  simp only [parseEvent] at h
  split at h
  case isTrue hempty => simp at h
  case isFalse hne =>
    split at h
    case h_1 s t heq1 heq2 =>
      have he := Option.some.inj (Except.ok.inj h)
      subst he
      refine ⟨by simpa using hne, by dsimp only; exact heq1.symm, ?_, ?_⟩
      · intro hs
        dsimp only at hs ⊢
        subst hs
        rw [heq1]
        simp
      · intro hs
        dsimp only at hs ⊢
        rw [heq1]
        have hfalse : (PyVal.vStr s == PyVal.vStr "d") = false := by
          simpa using hs
        rw [hfalse]
        simp
    case h_2 => simp at h

/-- Counterexample to C2 as stated: with a present but falsy __op value,
the code takes the op from the op key, not from __op. -/
theorem parseEvent_truthiness_cex :
    claimedOp [("__op", PyVal.vStr ""), ("op", PyVal.vStr "u"),
      ("x", PyVal.vStr "1")] = PyVal.vStr "" ∧
    parseEvent 0 [("__op", PyVal.vStr ""), ("op", PyVal.vStr "u"),
      ("x", PyVal.vStr "1")] =
      Except.ok (some ⟨"u", none,
        some [("op", PyVal.vStr "u"), ("x", PyVal.vStr "1")], some 0⟩) ∧
    ("u" : String) ≠ "" :=
  ⟨rfl, rfl, by decide⟩

/-- Claim C2 (amended): normalization takes the op from __op only when
its value is truthy, else from op, else c; __deleted equal to the string
true forces d; double-underscore keys never survive into before or
after; an event whose filtered payload is empty is dropped with no side
effect; and the fields go to before exactly for op d, else to after. -/
theorem parseEvent_normalization (now : Int) (p : Payload) :
    (parseEvent now p = Except.ok none ↔
      (p.filter (fun e => !(pyStartsWith e.1 "__"))).isEmpty = true) ∧
    (parseEvent now p = Except.ok none →
      ∀ env, processEvent env now p = ⟨false, 0, 0, []⟩) ∧
    (∀ e, parseEvent now p = Except.ok (some e) →
      (PyVal.vStr e.op = (if pyGet p "__deleted" == some (PyVal.vStr "true")
        then PyVal.vStr "d"
        else pyOr (pyGet p "__op") (pyGetD p "op" (PyVal.vStr "c"))) ∧
      (pyGet p "__deleted" = some (PyVal.vStr "true") → e.op = "d") ∧
      (e.op = "d" →
        e.before = some (p.filter (fun x => !(pyStartsWith x.1 "__"))) ∧
        e.after = none) ∧
      (e.op ≠ "d" →
        e.after = some (p.filter (fun x => !(pyStartsWith x.1 "__"))) ∧
        e.before = none) ∧
      (∀ d, e.before = some d ∨ e.after = some d →
        ∀ kv ∈ d, pyStartsWith kv.1 "__" = false))) := by
  refine ⟨?_, ?_, ?_⟩
  · constructor
    · intro h
      simp only [parseEvent] at h
      split at h
      case isTrue hempty => exact hempty
      case isFalse hne =>
        split at h
        case h_1 => simp at h
        case h_2 => simp at h
    · intro h
      simp only [parseEvent]
      rw [if_pos h]
  · intro h env
    simp [processEvent, h]
  · intro e h
    obtain ⟨hne, hop, hd, hnd⟩ := parseEvent_ok_some now p e h
    refine ⟨hop, ?_, hd, hnd, ?_⟩
    · intro hdel
      rw [hdel] at hop
      have hcond : (some (PyVal.vStr "true") == some (PyVal.vStr "true")) =
          true := by decide
      rw [if_pos hcond] at hop
      exact (PyVal.vStr.injEq _ _).mp hop
    · intro d hdor kv hkv
      have hdf : d = p.filter (fun x => !(pyStartsWith x.1 "__")) := by
        rcases hdor with hb | ha
        · by_cases hcase : e.op = "d"
          · have := (hd hcase).1
            rw [hb] at this
            exact Option.some.inj this
          · have := (hnd hcase).2
            rw [hb] at this
            simp at this
        · by_cases hcase : e.op = "d"
          · have := (hd hcase).2
            rw [ha] at this
            simp at this
          · have := (hnd hcase).1
            rw [ha] at this
            exact Option.some.inj this
      subst hdf
      have := List.of_mem_filter hkv
      simpa using this

/-- Witness for C2: a dropped event leaves counters and the stores
untouched, and a __deleted event parses with op d. -/
theorem parseEvent_normalization_witness :
    processEvent trivialEnv 0 [("__gone", PyVal.vInt 1)] = ⟨false, 0, 0, []⟩ ∧
    ("d" : String) = "d" :=
  ⟨(parseEvent_normalization 0 [("__gone", PyVal.vInt 1)]).2.1 rfl trivialEnv,
    (parseEvent_normalization 0
        [("__deleted", PyVal.vStr "true"), ("x", PyVal.vStr "1")]).2.2
      ⟨"d", some [("x", PyVal.vStr "1")], none, some 0⟩ rfl |>.2.1 rfl⟩

/-- Counterexample to C8 as stated: a dropped event does not increment
updates_total, because the increment sits after parsing. -/
theorem updatesCounter_dropped_cex :
    (processEvent trivialEnv 0
      [("__ignored", PyVal.vInt 1)]).updatesIncrement = 0 ∧
    (0 : Nat) ≠ 1 :=
  ⟨rfl, by decide⟩

/-- Claim C8 (amended): updates_total increments exactly once for every
event whose parse yields a non-dropped event (dropped and invalid events
do not increment it), and update_errors_total increments exactly once
for every invocation that raises. -/
theorem counterIncrements (env : EventEnv) (now : Int) (p : Payload) :
    (∀ e, parseEvent now p = Except.ok (some e) →
      (processEvent env now p).updatesIncrement = 1) ∧
    (parseEvent now p = Except.ok none →
      (processEvent env now p).updatesIncrement = 0) ∧
    (parseEvent now p = Except.error () →
      (processEvent env now p).updatesIncrement = 0 ∧
      (processEvent env now p).errorsIncrement = 1) ∧
    ((processEvent env now p).errorsIncrement =
      if (processEvent env now p).raised then 1 else 0) := by
  refine ⟨?_, ?_, ?_, ?_⟩
  · intro e h
    simp only [processEvent, h]
    split <;> first | rfl | (split <;> rfl)
  · intro h
    simp [processEvent, h]
  · intro h
    simp [processEvent, h]
  · cases hpe : parseEvent now p with
    | error u =>
      simp [processEvent, hpe]
    | ok o =>
      cases o with
      | none => simp [processEvent, hpe]
      | some e =>
        simp only [processEvent, hpe]
        split <;> first | rfl | (split <;> rfl)

/-- Witness for C8 at a concrete create event. -/
theorem counterIncrements_witness :
    (processEvent trivialEnv 0 [("x", PyVal.vStr "1")]).updatesIncrement = 1 :=
  (counterIncrements trivialEnv 0 [("x", PyVal.vStr "1")]).1
    ⟨"c", none, some [("x", PyVal.vStr "1")], some 0⟩ rfl

/-- Claim C10: on a delete event, a missing id is a logged warning and a
clean return with no effect, while a present id that the UUID
constructor rejects raises, so process_event re-raises (and the consumer
routes the event to the DLQ). -/
theorem deleteEvent_idPaths (env : EventEnv) (now : Int) (p : Payload)
    (e : DocumentEvent) (b : Payload)
    (hparse : parseEvent now p = Except.ok (some e))
    (hop : e.op = "d") (hb : e.before = some b) :
    (pyGet b "id" = none → processEvent env now p = ⟨false, 1, 0, []⟩) ∧
    (∀ v, pyGet b "id" = some v → isValidUuidVal v = false →
      processEvent env now p = ⟨true, 1, 1, []⟩) := by
  obtain ⟨hne, _, hd, _⟩ := parseEvent_ok_some now p e hparse
  obtain ⟨hbf, hafter⟩ := hd hop
  have hbeq : b = p.filter (fun x => !(pyStartsWith x.1 "__")) :=
    Option.some.inj (hb.symm.trans hbf)
  have hbne : b.isEmpty = false := hbeq ▸ hne
  constructor
  · intro hid
    have hdoc : getDocumentId e = Except.ok none := by
      simp [getDocumentId, hafter, hb, hbne, hid]
    simp only [processEvent, hparse, hop]
    have hdd : (("d" : String) == "d") = true := by decide
    rw [hdd]
    simp only [if_true, handleDelete, hdoc]
    rfl
  · intro v hid hval
    have hdoc : getDocumentId e = Except.error () := by
      cases v with
      | vStr s =>
        cases hps : pythonUuidInt s with
        | none => simp [getDocumentId, hafter, hb, hbne, hid, hps]
        | some u =>
          rw [isValidUuidVal, hps] at hval
          simp at hval
      | vNull => simp [getDocumentId, hafter, hb, hbne, hid]
      | vBool bb => simp [getDocumentId, hafter, hb, hbne, hid]
      | vInt i => simp [getDocumentId, hafter, hb, hbne, hid]
    simp only [processEvent, hparse, hop]
    have hdd : (("d" : String) == "d") = true := by decide
    rw [hdd]
    simp only [if_true, handleDelete, hdoc]

/-- Witness for C10: a delete event without an id returns cleanly, one
with a malformed id raises and counts an error. -/
theorem deleteEvent_idPaths_witness :
    processEvent trivialEnv 0
      [("__deleted", PyVal.vStr "true"), ("x", PyVal.vStr "1")] =
      ⟨false, 1, 0, []⟩ ∧
    processEvent trivialEnv 0
      [("__deleted", PyVal.vStr "true"), ("id", PyVal.vStr "zzz")] =
      ⟨true, 1, 1, []⟩ :=
  ⟨(deleteEvent_idPaths trivialEnv 0
      [("__deleted", PyVal.vStr "true"), ("x", PyVal.vStr "1")]
      ⟨"d", some [("x", PyVal.vStr "1")], none, some 0⟩
      [("x", PyVal.vStr "1")] rfl rfl rfl).1 rfl,
    (deleteEvent_idPaths trivialEnv 0
      [("__deleted", PyVal.vStr "true"), ("id", PyVal.vStr "zzz")]
      ⟨"d", some [("id", PyVal.vStr "zzz")], none, some 0⟩
      [("id", PyVal.vStr "zzz")] rfl rfl rfl).2 (PyVal.vStr "zzz") rfl rfl⟩

/-- Helper for C5: when every attempt from the current one through the
last allowed one raises a retried error, the loop performs them all,
sleeps the exponential backoff between attempts, and re-raises the last
error. -/
theorem retryFrom_allFail (op : Nat → Except ε α) (retriable : ε → Bool)
    (delay mult : ℚ) :
    ∀ remaining attempt,
    (∀ k, attempt ≤ k → k ≤ attempt + remaining →
      ∃ e, op k = Except.error e ∧ retriable e = true) →
    ∀ e, op (attempt + remaining) = Except.error e →
    retryFrom op retriable delay mult remaining attempt =
      ⟨Except.error e, attempt + remaining + 1,
        (List.range remaining).map (fun k => delay * mult ^ (attempt + k))⟩ := by
  intro remaining
  induction remaining with
  | zero =>
    intro attempt hfail e he
    obtain ⟨e0, he0, hr0⟩ := hfail attempt le_rfl (by omega)
    have he' : op attempt = Except.error e := by simpa using he
    rw [he0] at he'
    obtain rfl := Except.error.inj he'
    rw [retryFrom, he0]
    dsimp only
    rw [if_pos hr0]
    simp
  | succ r ih =>
    intro attempt hfail e he
    obtain ⟨e0, he0, hr0⟩ := hfail attempt le_rfl (by omega)
    have hrec := ih (attempt + 1)
      (fun k hk1 hk2 => hfail k (by omega) (by omega)) e
      (by rw [show attempt + 1 + r = attempt + (r + 1) from by omega]; exact he)
    have hw : delay * mult ^ attempt ::
        (List.range r).map (fun k => delay * mult ^ (attempt + 1 + k)) =
        (List.range (r + 1)).map (fun k => delay * mult ^ (attempt + k)) := by
      rw [List.range_succ_eq_map, List.map_cons, List.map_map]
      refine congrArg₂ _ (by rw [Nat.add_zero]) ?_
      refine List.map_congr_left ?_
      intro k _
      simp only [Function.comp_apply]
      rw [show attempt + (k + 1) = attempt + 1 + k from by omega]
    rw [retryFrom, he0]
    dsimp only
    rw [if_pos hr0]
    simp only [hrec]
    rw [RetryOutcome.mk.injEq]
    exact ⟨rfl, by omega, hw⟩

/-- Helper for C5: when the attempts before j raise retried errors and
attempt j settles the run (success, or an error outside the retried
classes), the loop stops at attempt j after j waits. -/
theorem retryFrom_stopsAt (op : Nat → Except ε α) (retriable : ε → Bool)
    (delay mult : ℚ) :
    ∀ remaining attempt j, attempt ≤ j → j ≤ attempt + remaining →
    (∀ k, attempt ≤ k → k < j →
      ∃ e, op k = Except.error e ∧ retriable e = true) →
    (∀ a, op j = Except.ok a →
      retryFrom op retriable delay mult remaining attempt =
        ⟨Except.ok a, j + 1,
          (List.range (j - attempt)).map
            (fun k => delay * mult ^ (attempt + k))⟩) ∧
    (∀ e, op j = Except.error e → retriable e = false →
      retryFrom op retriable delay mult remaining attempt =
        ⟨Except.error e, j + 1,
          (List.range (j - attempt)).map
            (fun k => delay * mult ^ (attempt + k))⟩) := by
  intro remaining
  induction remaining with
  | zero =>
    intro attempt j h1 h2 hfail
    obtain rfl : attempt = j := by omega
    constructor
    · intro a ha
      rw [retryFrom, ha]
      simp
    · intro e he hr
      rw [retryFrom, he]
      dsimp only
      rw [if_neg (by simp [hr])]
      simp
  | succ r ih =>
    intro attempt j h1 h2 hfail
    by_cases hje : attempt = j
    · subst hje
      constructor
      · intro a ha
        rw [retryFrom, ha]
        simp
      · intro e he hr
        rw [retryFrom, he]
        dsimp only
        rw [if_neg (by simp [hr])]
        simp
    · have hlt : attempt < j := by omega
      obtain ⟨e0, he0, hr0⟩ := hfail attempt le_rfl hlt
      have hrec := ih (attempt + 1) j (by omega) (by omega)
        (fun k hk1 hk2 => hfail k (by omega) hk2)
      have hw : delay * mult ^ attempt ::
          (List.range (j - (attempt + 1))).map
            (fun k => delay * mult ^ (attempt + 1 + k)) =
          (List.range (j - attempt)).map
            (fun k => delay * mult ^ (attempt + k)) := by
        rw [show j - attempt = (j - (attempt + 1)) + 1 from by omega,
          List.range_succ_eq_map, List.map_cons, List.map_map]
        refine congrArg₂ _ (by rw [Nat.add_zero]) ?_
        refine List.map_congr_left ?_
        intro k _
        simp only [Function.comp_apply]
        rw [show attempt + (k + 1) = attempt + 1 + k from by omega]
      constructor
      · intro a ha
        rw [retryFrom, he0]
        dsimp only
        rw [if_pos hr0]
        simp only [hrec.1 a ha]
        rw [RetryOutcome.mk.injEq]
        exact ⟨rfl, rfl, hw⟩
      · intro e he hr
        rw [retryFrom, he0]
        dsimp only
        rw [if_pos hr0]
        simp only [hrec.2 e he hr]
        rw [RetryOutcome.mk.injEq]
        exact ⟨rfl, rfl, hw⟩

/-- Counterexample to C5 as stated: passing max_retries zero does not
give one invocation; zero is falsy, so the Python-or default replaces it
with the configured three retries and the loop runs four attempts. -/
theorem retry_zeroMaxRetries_cex :
    (retryWithBackoff (fun _ => (Except.error () : Except Unit Nat))
      (some 0) none none (fun _ => true)).invocations = 4 ∧
    (4 : Nat) ≠ 0 + 1 :=
  ⟨rfl, by decide⟩

/-- Claim C5 (amended): with the effective retry count N equal to the
passed max_retries when that is a nonzero value and the default three
otherwise, an operation that raises a retried error on every attempt is
invoked exactly N+1 times with the exponential backoff waits between
attempts and the last error re-raised; an operation that settles at
attempt j (success or an error outside the retried classes) is invoked
exactly j+1 times, returning the success immediately or propagating the
error with no further invocations. -/
theorem retryWithBackoff_spec (op : Nat → Except ε α) (retriable : ε → Bool)
    (maxRetries : Option Nat) (delay backoffMultiplier : Option ℚ) :
    ((∀ k, k ≤ pyOrNat maxRetries settingsMaxRetries →
        ∃ e, op k = Except.error e ∧ retriable e = true) →
      ∀ e, op (pyOrNat maxRetries settingsMaxRetries) = Except.error e →
      retryWithBackoff op maxRetries delay backoffMultiplier retriable =
        ⟨Except.error e, pyOrNat maxRetries settingsMaxRetries + 1,
          (List.range (pyOrNat maxRetries settingsMaxRetries)).map
            (fun k => pyOrRat delay settingsRetryDelaySeconds *
              pyOrRat backoffMultiplier settingsRetryBackoffMultiplier ^ k)⟩) ∧
    (∀ j a, j ≤ pyOrNat maxRetries settingsMaxRetries →
      (∀ k, k < j → ∃ e, op k = Except.error e ∧ retriable e = true) →
      op j = Except.ok a →
      retryWithBackoff op maxRetries delay backoffMultiplier retriable =
        ⟨Except.ok a, j + 1,
          (List.range j).map
            (fun k => pyOrRat delay settingsRetryDelaySeconds *
              pyOrRat backoffMultiplier settingsRetryBackoffMultiplier ^ k)⟩) ∧
    (∀ j e, j ≤ pyOrNat maxRetries settingsMaxRetries →
      (∀ k, k < j → ∃ e, op k = Except.error e ∧ retriable e = true) →
      op j = Except.error e → retriable e = false →
      retryWithBackoff op maxRetries delay backoffMultiplier retriable =
        ⟨Except.error e, j + 1,
          (List.range j).map
            (fun k => pyOrRat delay settingsRetryDelaySeconds *
              pyOrRat backoffMultiplier settingsRetryBackoffMultiplier ^ k)⟩) := by
  refine ⟨?_, ?_, ?_⟩
  · intro hfail e he
    have h := retryFrom_allFail op retriable
      (pyOrRat delay settingsRetryDelaySeconds)
      (pyOrRat backoffMultiplier settingsRetryBackoffMultiplier)
      (pyOrNat maxRetries settingsMaxRetries) 0
      (fun k hk1 hk2 => hfail k (by omega)) e (by simpa using he)
    rw [retryWithBackoff, h]
    simp
  · intro j a hj hfail ha
    have h := (retryFrom_stopsAt op retriable
      (pyOrRat delay settingsRetryDelaySeconds)
      (pyOrRat backoffMultiplier settingsRetryBackoffMultiplier)
      (pyOrNat maxRetries settingsMaxRetries) 0 j (by omega) (by omega)
      (fun k hk1 hk2 => hfail k hk2)).1 a ha
    rw [retryWithBackoff, h]
    simp
  · intro j e hj hfail he hr
    have h := (retryFrom_stopsAt op retriable
      (pyOrRat delay settingsRetryDelaySeconds)
      (pyOrRat backoffMultiplier settingsRetryBackoffMultiplier)
      (pyOrNat maxRetries settingsMaxRetries) 0 j (by omega) (by omega)
      (fun k hk1 hk2 => hfail k hk2)).2 e he hr
    rw [retryWithBackoff, h]
    simp

/-- Witness for C5: exhausting two retries makes three invocations;
succeeding on the second attempt makes two and returns the value. -/
theorem retryWithBackoff_spec_witness :
    (retryWithBackoff (fun _ => (Except.error () : Except Unit Nat))
      (some 2) none none (fun _ => true)).invocations = 3 ∧
    (retryWithBackoff
      (fun k => if k = 1 then Except.ok 7
        else (Except.error () : Except Unit Nat))
      (some 3) none none (fun _ => true)).invocations = 2 ∧
    (retryWithBackoff
      (fun k => if k = 1 then Except.ok 7
        else (Except.error () : Except Unit Nat))
      (some 3) none none (fun _ => true)).result = Except.ok 7 := by
  have h1 := (retryWithBackoff_spec
    (fun _ => (Except.error () : Except Unit Nat)) (fun _ => true)
    (some 2) none none).1 (fun k hk => ⟨(), rfl, rfl⟩) () rfl
  have h2 := (retryWithBackoff_spec
    (fun k => if k = 1 then Except.ok 7
      else (Except.error () : Except Unit Nat)) (fun _ => true)
    (some 3) none none).2.1 1 7 (by decide)
    (fun k hk => by
      have hk0 : k = 0 := by omega
      subst hk0
      exact ⟨(), rfl, rfl⟩) rfl
  rw [h1, h2]
  exact ⟨rfl, rfl, rfl⟩

/-- Witness for C7 on a 25-source list at page 2 of size 10. -/
theorem paginateSources_spec_witness :
    (paginateSources (List.replicate 25 ⟨"d", 1, 1, true⟩) 2 10).1.length ≤ 10 ∧
    (paginateSources (List.replicate 25 ⟨"d", 1, 1, true⟩) 2 10).2.isSome =
      true :=
  ⟨(paginateSources_spec (List.replicate 25 ⟨"d", 1, 1, true⟩) 2 10
      (by decide) (by decide)).1,
    (paginateSources_spec (List.replicate 25 ⟨"d", 1, 1, true⟩) 2 10
      (by decide) (by decide)).2.2.1.mpr (by decide)⟩

end RagSpec
